import Mathlib

/-! CutyCapt: capture orchestration and output dispatch.

A shallow embedding of `CutyCapt.cpp`: the format table `CutyExtMap`, the
command line loop of `main`, the slots of the `CutyCapt` object and
`saveSnapshot`.  C strings are lists of characters (the terminating NUL is
the end of the list); Qt objects are records that log the calls made on them.
-/

namespace Cuty

/-! ## C library -/

/-- A C string: the characters before the terminating NUL. -/
abbrev CString := List Char

/-- The function `strchr(s, c)`: the part of `s` starting at the first `c`,
or `none` for a null pointer. -/
def strchr : CString → Char → Option CString
  | [], _ => none
  | a :: rest, c => if a = c then some (a :: rest) else strchr rest c

/-- The function `strcmp(a, b)`: zero, or the difference of the first pair of
characters that differ (the end of a string counts as character 0). -/
def strcmp : CString → CString → Int
  | [], [] => 0
  | [], b :: _ => 0 - (b.toNat : Int)
  | a :: _, [] => (a.toNat : Int)
  | a :: as, b :: bs => if a = b then strcmp as bs else (a.toNat : Int) - (b.toNat : Int)

/-- The function `strncmp(a, b, n)`: as `strcmp`, looking at no more than `n`
characters. -/
def strncmp : CString → CString → Nat → Int
  | _, _, 0 => 0
  | [], [], _ + 1 => 0
  | [], b :: _, _ + 1 => 0 - (b.toNat : Int)
  | a :: _, [], _ + 1 => (a.toNat : Int)
  | a :: as, b :: bs, n + 1 =>
    if a = b then strncmp as bs n else (a.toNat : Int) - (b.toNat : Int)

/-- The predicate `isspace` of the C locale. -/
def isspace (c : Char) : Bool :=
  c = ' ' || c = '\t' || c = '\n' || c = '\x0b' || c = '\x0c' || c = '\r'

/-- The digit loop of `atoi`. -/
def atoiDigits : CString → Int → Int
  | [], acc => acc
  | c :: rest, acc =>
    if c.isDigit then atoiDigits rest (acc * 10 + ((c.toNat : Int) - 48)) else acc

/-- The conversion `(unsigned int)x` stored back into an `int` variable:
reduction modulo `2^32` read as a two's complement number. -/
def unsignedToInt (x : Int) : Int :=
  let u := x % 2 ^ 32
  if u < 2 ^ 31 then u else u - 2 ^ 32

/-- The function `strtol(s, NULL, 10)`: leading white space, an optional sign,
decimal digits; a value outside `long` (64 bits) is replaced by `LONG_MIN` or
`LONG_MAX`. -/
def strtol (s : CString) : Int :=
  let v := match s.dropWhile isspace with
    | '-' :: rest => - atoiDigits rest 0
    | '+' :: rest => atoiDigits rest 0
    | t => atoiDigits t 0
  max (-(2 ^ 63)) (min v (2 ^ 63 - 1))

/-- The function `atoi`, which the C library computes as
`(int) strtol(s, NULL, 10)`: the conversion to `int` keeps the low 32 bits.
(C itself leaves the result undefined for a value outside `int`.) -/
def atoi (s : CString) : Int :=
  unsignedToInt (strtol s)

/-! ## The format table -/

/-- Modelled from the spec: the enumeration `CutyCapt::OutputFormat` is declared
in `CutyCapt.hpp`, which is not among the sources; its members are the ones
`CutyCapt.cpp` names. -/
inductive OutputFormat
  | SvgFormat | PdfFormat | PsFormat | InnerTextFormat | HtmlFormat
  | RenderTreeFormat | JpegFormat | PngFormat | MngFormat | TiffFormat
  | GifFormat | BmpFormat | PpmFormat | XbmFormat | XpmFormat | OtherFormat
  deriving DecidableEq, Repr

open OutputFormat

/-- A row of `CutyExtMap`. -/
structure ExtMapEntry where
  id : OutputFormat
  extension : CString
  identifier : CString
  deriving DecidableEq, Repr

/-- The table `CutyExtMap`, its terminating `OtherFormat` row included. -/
def CutyExtMap : List ExtMapEntry :=
  [ ⟨SvgFormat, ".svg".toList, "svg".toList⟩,
    ⟨PdfFormat, ".pdf".toList, "pdf".toList⟩,
    ⟨PsFormat, ".ps".toList, "ps".toList⟩,
    ⟨InnerTextFormat, ".txt".toList, "itext".toList⟩,
    ⟨HtmlFormat, ".html".toList, "html".toList⟩,
    ⟨RenderTreeFormat, ".rtree".toList, "rtree".toList⟩,
    ⟨JpegFormat, ".jpeg".toList, "jpeg".toList⟩,
    ⟨PngFormat, ".png".toList, "png".toList⟩,
    ⟨MngFormat, ".mng".toList, "mng".toList⟩,
    ⟨TiffFormat, ".tiff".toList, "tiff".toList⟩,
    ⟨GifFormat, ".gif".toList, "gif".toList⟩,
    ⟨BmpFormat, ".bmp".toList, "bmp".toList⟩,
    ⟨PpmFormat, ".ppm".toList, "ppm".toList⟩,
    ⟨XbmFormat, ".xbm".toList, "xbm".toList⟩,
    ⟨XpmFormat, ".xpm".toList, "xpm".toList⟩,
    ⟨OtherFormat, [], []⟩ ]

/-- The method `QString::endsWith` (case sensitive). -/
def endsWith (s suffix : CString) : Bool :=
  suffix.isSuffixOf s

/-- The loop of the `--out` branch of `main`:
`for (ix = 0; CutyExtMap[ix].id != OtherFormat; ++ix)
   if (argOut.endsWith(CutyExtMap[ix].extension)) format = CutyExtMap[ix].id;`
run over the rows from index `ix` on. -/
def outLoop (argOut : CString) : List ExtMapEntry → OutputFormat → OutputFormat
  | [], format => format
  | e :: rest, format =>
    if e.id = OtherFormat then format
    else outLoop argOut rest (if endsWith argOut e.extension then e.id else format)

/-- The loop of the `--out-format` branch of `main`:
`if (strcmp(value, CutyExtMap[ix].identifier) == 0) format = CutyExtMap[ix].id;`. -/
def outFormatLoop (value : CString) : List ExtMapEntry → OutputFormat → OutputFormat
  | [], format => format
  | e :: rest, format =>
    if e.id = OtherFormat then format
    else outFormatLoop value rest (if strcmp value e.identifier = 0 then e.id else format)

/-- The first loop of `saveSnapshot`:
`if (CutyExtMap[ix].id == mFormat) format = CutyExtMap[ix].identifier;`,
where `none` is the initial `NULL`. -/
def identifierLoop (mFormat : OutputFormat) :
    List ExtMapEntry → Option CString → Option CString
  | [], format => format
  | e :: rest, format =>
    if e.id = OtherFormat then format
    else identifierLoop mFormat rest (if e.id = mFormat then some e.identifier else format)

/-! ## Qt objects -/

/-- The members of `QWebSettings::WebAttribute` that `main` sets. -/
inductive WebAttribute
  | AutoLoadImages | JavascriptEnabled | JavaEnabled | PluginsEnabled
  | PrivateBrowsingEnabled | JavascriptCanOpenWindows | JavascriptCanAccessClipboard
  | DeveloperExtrasEnabled | LinksIncludedInFocusChain
  deriving DecidableEq, Repr

/-- The members of `QNetworkAccessManager::Operation` that `main` names. -/
inductive Operation
  | HeadOperation | GetOperation | PutOperation | PostOperation
  deriving DecidableEq, Repr

/-- A `QSize`. -/
structure QSize where
  width : Int
  height : Int
  deriving DecidableEq, Repr

/-- The slots of `CutyCapt` that a single-shot timer is connected to. -/
inductive Slot
  | Timeout | Delayed
  deriving DecidableEq, Repr

/-- The state of the `CutyPage` object, its settings and its main frame. -/
structure CutyPage where
  /-- The member `mUserAgent`; `none` is the null string. -/
  mUserAgent : Option CString := none
  /-- The calls `settings()->setAttribute(option, on)`, the latest first. -/
  attributes : List (WebAttribute × Bool) := []
  /-- The argument of `setUserStyleSheetUrl`, when it was called. -/
  userStyleSheetUrl : Option CString := none
  /-- The argument of `setIconDatabasePath`, when it was called; the inner
  `none` is a null `char` pointer. -/
  iconDatabasePath : Option (Option CString) := none
  /-- Scroll bar policies set to `ScrollBarAlwaysOff` (horizontal, vertical). -/
  scrollBarsOff : Bool × Bool := (false, false)
  /-- The value of `viewportSize()`. -/
  viewportSize : QSize := ⟨0, 0⟩
  /-- The value the engine reports as `mainFrame()->contentsSize()`. -/
  contentsSize : QSize := ⟨0, 0⟩
  deriving DecidableEq, Repr

/-- The method `CutyPage::setAttribute`. -/
def CutyPage.setAttribute (page : CutyPage) (option : WebAttribute) (value : CString) :
    CutyPage :=
  if value = "on".toList then { page with attributes := (option, true) :: page.attributes }
  else if value = "off".toList then
    { page with attributes := (option, false) :: page.attributes }
  else page

/-- The method `CutyPage::setUserAgent`. -/
def CutyPage.setUserAgent (page : CutyPage) (userAgent : CString) : CutyPage :=
  { page with mUserAgent := some userAgent }

/-- The value of a web attribute: the latest `setAttribute` call, if any. -/
def CutyPage.testAttribute (page : CutyPage) (option : WebAttribute) : Option Bool :=
  (page.attributes.find? (fun a => a.1 = option)).map Prod.snd

/-- The request body: `QByteArray(value)` or `QByteArray::fromBase64(value)`. -/
inductive Body
  | ofString (value : CString)
  | fromBase64 (value : CString)
  deriving DecidableEq, Repr

/-- The `QNetworkRequest` built by `main`. -/
structure QNetworkRequest where
  url : Option CString := none
  /-- The calls of `setRawHeader(name, value)`, in order. -/
  rawHeaders : List (CString × CString) := []
  deriving DecidableEq, Repr

/-- A call of `mainFrame()->load(req, method[, body])`. -/
structure LoadCall where
  req : QNetworkRequest
  method : Operation
  body : Option Body
  deriving DecidableEq, Repr

/-- The text written by the text branch of `saveSnapshot`. -/
inductive TextSource
  | renderTreeDump | toPlainText | toHtml | bug
  deriving DecidableEq, Repr

/-- What one run of the `switch` of `saveSnapshot` writes. -/
inductive ExportKind
  /-- A `QSvgGenerator` of the given size, painted by `mainFrame->render`. -/
  | svg (size : QSize)
  /-- A `QPrinter` with the given page size, filled by `mainFrame->print`. -/
  | print (pageSize : String)
  /-- A `QTextStream` with the given codec, fed one text. -/
  | text (codec : String) (source : TextSource)
  /-- A `QImage` of the given size and pixel format, painted by
  `mainFrame->render` and saved with `image.save(mOutput, format)`. -/
  | image (size : QSize) (pixelFormat : String) (format : Option CString)
  deriving DecidableEq, Repr

/-- One export: its kind, the file name, and whether Qt reported success
(a result that `saveSnapshot` discards). -/
structure Export where
  kind : ExportKind
  fileName : CString
  ok : Bool
  deriving DecidableEq, Repr

/-- The capture session: the members of the `CutyCapt` object, the page it
points to, and what the Qt runtime holds for it. -/
structure World where
  mPage : CutyPage
  mOutput : CString
  mDelay : Int
  mSawInitialLayout : Bool
  mSawDocumentComplete : Bool
  mFormat : OutputFormat
  /-- Pending `QTimer::singleShot(msec, this, SLOT(...))` timers, oldest first. -/
  timers : List (Int × Slot) := []
  /-- The calls of `mainFrame()->load`, in order. -/
  loads : List LoadCall := []
  /-- The exports made so far, in order. -/
  exports : List Export := []
  /-- The return codes passed to `QApplication::exit`, in order. -/
  exits : List Int := []
  /-- The number of `printf` calls made so far (only `CaptHelp` has one). -/
  printed : Nat := 0
  /-- Ghost: the number of calls of `TryDelayedRender` so far. -/
  tryDelayedRenderCalls : Nat := 0
  /-- Whether Qt can open the output file for writing. -/
  fileOpens : Bool := true
  /-- Whether the image encoder can save in the requested format. -/
  encoderSaves : Bool := true
  deriving DecidableEq, Repr

/-! ## The `CutyCapt` object -/

/-- The constructor `CutyCapt::CutyCapt(page, output, delay, format)`. -/
def CutyCapt.new (page : CutyPage) (output : CString) (delay : Int) (format : OutputFormat) :
    World :=
  { mPage := page, mOutput := output, mDelay := delay, mSawInitialLayout := false,
    mSawDocumentComplete := false, mFormat := format }

/-- The `switch (mFormat)` of `saveSnapshot`, given the encoder identifier found
by the first loop and the viewport size. -/
def exportKind (mFormat : OutputFormat) (viewportSize : QSize) (format : Option CString) :
    ExportKind :=
  match mFormat with
  | SvgFormat => .svg viewportSize
  | PdfFormat | PsFormat => .print "A4"
  | RenderTreeFormat | InnerTextFormat | HtmlFormat =>
    .text "utf-8"
      (if mFormat = RenderTreeFormat then .renderTreeDump
       else if mFormat = InnerTextFormat then .toPlainText
       else if mFormat = HtmlFormat then .toHtml
       else .bug)
  | _ => .image viewportSize "Format_ARGB32" format

/-- Whether Qt reports success for an export of this kind. -/
def exportOk (w : World) : ExportKind → Bool
  | .image _ _ _ => w.fileOpens && w.encoderSaves
  | _ => w.fileOpens

/-- The method `CutyCapt::saveSnapshot`. -/
def saveSnapshot (w : World) : World :=
  let format := identifierLoop w.mFormat CutyExtMap none
  let page := { w.mPage with viewportSize := w.mPage.contentsSize }
  let kind := exportKind w.mFormat page.viewportSize format
  { w with mPage := page, exports := w.exports ++ [⟨kind, w.mOutput, exportOk w kind⟩] }

/-- The call `QApplication::exit(returnCode)`. -/
def appExit (w : World) (returnCode : Int) : World :=
  { w with exits := w.exits ++ [returnCode] }

/-- The slot `CutyCapt::TryDelayedRender`.  The source calls
`QApplication::exit()` without an argument, whose return code defaults to 0. -/
def TryDelayedRender (w : World) : World :=
  let w := { w with tryDelayedRenderCalls := w.tryDelayedRenderCalls + 1 }
  if w.mDelay > 0 then
    { w with timers := w.timers ++ [(w.mDelay, Slot.Delayed)] }
  else
    appExit (saveSnapshot w) 0

/-- The slot `CutyCapt::InitialLayoutCompleted`. -/
def InitialLayoutCompleted (w : World) : World :=
  let w := { w with mSawInitialLayout := true }
  if w.mSawInitialLayout && w.mSawDocumentComplete then TryDelayedRender w else w

/-- The slot `CutyCapt::DocumentComplete`; the argument is not looked at. -/
def DocumentComplete (_ok : Bool) (w : World) : World :=
  let w := { w with mSawDocumentComplete := true }
  if w.mSawInitialLayout && w.mSawDocumentComplete then TryDelayedRender w else w

/-- The slot `CutyCapt::Timeout`. -/
def Timeout (w : World) : World :=
  appExit (saveSnapshot w) 0

/-- The slot `CutyCapt::Delayed`. -/
def Delayed (w : World) : World :=
  appExit (saveSnapshot w) 0

/-! ## The function `main` -/

/-- The `QApplication` object as far as `main` sets it. -/
structure QApplication where
  applicationName : Option CString := none
  applicationVersion : Option CString := none
  deriving DecidableEq, Repr

/-- The local variables of `main` and the objects it builds before the loop. -/
structure MainState where
  argHelp : Int := 0
  argDelay : Int := 0
  argSilent : Int := 0
  argMinWidth : Int := 800
  argDefHeight : Int := 600
  argMaxWait : Int := 90000
  argVerbosity : Int := 0
  argUrl : Option CString := none
  argUserStyle : Option CString := none
  argIconDbPath : Option CString := none
  /-- A `QString`; the null string and the empty string are both `[]`, and
  both compare equal to `NULL`. -/
  argOut : CString := []
  format : OutputFormat := OtherFormat
  app : QApplication := {}
  page : CutyPage := {}
  method : Operation := Operation.GetOperation
  /-- A `QByteArray`; `none` is the null array. -/
  body : Option Body := none
  req : QNetworkRequest := {}
  deriving DecidableEq, Repr

/-- How an iteration of the argument loop ends: with the next argument
(`continue` or the end of the body) or with `break`. -/
inductive Flow
  | next | stop
  deriving DecidableEq, Repr

/-- The branches of the `--name=value` chain of the loop body, in the order
of the source; `unknown` is the final `else`. -/
inductive Branch
  | url | minWidth | delay | maxWait | out | userStyles | iconDatabasePath
  | autoLoadImages | javascript | java | plugins | privateBrowsing
  | jsCanOpenWindows | jsCanAccessClipboard | developerExtras
  | linksIncludedInFocusChain | appName | appVersion | bodyBase64 | bodyString
  | userAgent | outFormat | header | method | unknown
  deriving DecidableEq, Repr

/-- The conditions of the `--name=value` chain: the first branch whose test
`strncmp("--name", s, nlen) == 0` holds, for the argument `s` with `nlen` the
length of its name. -/
def branchOf (s : CString) (nlen : Nat) : Branch :=
  if strncmp "--url".toList s nlen = 0 then .url
  else if strncmp "--min-width".toList s nlen = 0 then .minWidth
  else if strncmp "--delay".toList s nlen = 0 then .delay
  else if strncmp "--max-wait".toList s nlen = 0 then .maxWait
  else if strncmp "--out".toList s nlen = 0 then .out
  else if strncmp "--user-styles".toList s nlen = 0 then .userStyles
  else if strncmp "--icon-database-path".toList s nlen = 0 then .iconDatabasePath
  else if strncmp "--auto-load-images".toList s nlen = 0 then .autoLoadImages
  else if strncmp "--javascript".toList s nlen = 0 then .javascript
  else if strncmp "--java".toList s nlen = 0 then .java
  else if strncmp "--plugins".toList s nlen = 0 then .plugins
  else if strncmp "--private-browsing".toList s nlen = 0 then .privateBrowsing
  else if strncmp "--js-can-open-windows".toList s nlen = 0 then .jsCanOpenWindows
  else if strncmp "--js-can-access-clipboard".toList s nlen = 0 then .jsCanAccessClipboard
  else if strncmp "--developer-extras".toList s nlen = 0 then .developerExtras
  else if strncmp "--links-included-in-focus-chain".toList s nlen = 0 then
    .linksIncludedInFocusChain
  else if strncmp "--app-name".toList s nlen = 0 then .appName
  else if strncmp "--app-version".toList s nlen = 0 then .appVersion
  else if strncmp "--body-base64".toList s nlen = 0 then .bodyBase64
  else if strncmp "--body-string".toList s nlen = 0 then .bodyString
  else if strncmp "--user-agent".toList s nlen = 0 then .userAgent
  else if strncmp "--out-format".toList s nlen = 0 then .outFormat
  else if strncmp "--header".toList s nlen = 0 then .header
  else if strncmp "--method".toList s nlen = 0 then .method
  else .unknown

/-- The bodies of the `--name=value` chain, with `value` the text after the
first `=` of the argument. -/
def runBranch (value : CString) (st : MainState) : Branch → MainState × Flow
  | .url => ({ st with argUrl := some value }, .next)
  | .minWidth => ({ st with argMinWidth := unsignedToInt (atoi value) }, .next)
  | .delay => ({ st with argDelay := unsignedToInt (atoi value) }, .next)
  | .maxWait => ({ st with argMaxWait := unsignedToInt (atoi value) }, .next)
  | .out =>
    ({ st with
        argOut := value,
        format := if st.format = OtherFormat then outLoop value CutyExtMap st.format
                  else st.format }, .next)
  | .userStyles => ({ st with argUserStyle := some value }, .next)
  | .iconDatabasePath => ({ st with argIconDbPath := some value }, .next)
  | .autoLoadImages =>
    ({ st with page := st.page.setAttribute .AutoLoadImages value }, .next)
  | .javascript =>
    ({ st with page := st.page.setAttribute .JavascriptEnabled value }, .next)
  | .java => ({ st with page := st.page.setAttribute .JavaEnabled value }, .next)
  | .plugins => ({ st with page := st.page.setAttribute .PluginsEnabled value }, .next)
  | .privateBrowsing =>
    ({ st with page := st.page.setAttribute .PrivateBrowsingEnabled value }, .next)
  | .jsCanOpenWindows =>
    ({ st with page := st.page.setAttribute .JavascriptCanOpenWindows value }, .next)
  | .jsCanAccessClipboard =>
    ({ st with page := st.page.setAttribute .JavascriptCanAccessClipboard value }, .next)
  | .developerExtras =>
    ({ st with page := st.page.setAttribute .DeveloperExtrasEnabled value }, .next)
  | .linksIncludedInFocusChain =>
    ({ st with page := st.page.setAttribute .LinksIncludedInFocusChain value }, .next)
  | .appName => ({ st with app := { st.app with applicationName := some value } }, .next)
  | .appVersion =>
    ({ st with app := { st.app with applicationVersion := some value } }, .next)
  | .bodyBase64 => ({ st with body := some (Body.fromBase64 value) }, .next)
  | .bodyString => ({ st with body := some (Body.ofString value) }, .next)
  | .userAgent => ({ st with page := st.page.setUserAgent value }, .next)
  | .outFormat =>
    let format := outFormatLoop value CutyExtMap st.format
    if format = OtherFormat then
      ({ st with format := format, argHelp := 1 }, .stop)
    else
      ({ st with format := format }, .next)
  | .header =>
    match strchr value ':' with
    | none => ({ st with argHelp := 1 }, .stop)
    | some hv =>
      ({ st with req := { st.req with rawHeaders := st.req.rawHeaders ++
            [(value.take (value.length - hv.length), hv.drop 1)] } }, .next)
  | .method =>
    if strcmp "value".toList "get".toList = 0 then
      ({ st with method := .GetOperation }, .next)
    else if strcmp "value".toList "put".toList = 0 then
      ({ st with method := .PutOperation }, .next)
    else if strcmp "value".toList "post".toList = 0 then
      ({ st with method := .PostOperation }, .next)
    else if strcmp "value".toList "head".toList = 0 then
      ({ st with method := .HeadOperation }, .next)
    else
      (st, .next)
  | .unknown => ({ st with argHelp := 1 }, .next)

/-- The `--name=value` chain of the loop body, for the argument `s`, with
`nlen` the length of the name and `value` the text after the first `=`. -/
def nameValue (s : CString) (nlen : Nat) (value : CString) (st : MainState) :
    MainState × Flow :=
  runBranch value st (branchOf s nlen)

/-- The body of the argument loop of `main`, for the argument `s`. -/
def parseArg (s : CString) (st : MainState) : MainState × Flow :=
  if strcmp "--silent".toList s = 0 then
    ({ st with argSilent := 1 }, .next)
  else if strcmp "--help".toList s = 0 then
    ({ st with argHelp := 1 }, .stop)
  else if strcmp "--verbose".toList s = 0 then
    ({ st with argVerbosity := st.argVerbosity + 1 }, .next)
  else
    match strchr s '=' with
    | none => ({ st with argHelp := 1 }, .stop)
    | some value => nameValue s (s.length - value.length) (value.drop 1) st

/-- The argument loop `for (ax = 1; ax < argc; ++ax)`, over `argv[ax..]`. -/
def parseLoop : List CString → MainState → MainState
  | [], st => st
  | s :: rest, st =>
    match parseArg s st with
    | (st1, .next) => parseLoop rest st1
    | (st1, .stop) => st1

/-- How `main` ends. -/
inductive MainResult
  /-- The path `CaptHelp(); return EXIT_FAILURE;`. -/
  | usage
  /-- The path `return app.exec();`: the event loop runs on this session. -/
  | exec (w : World)
  deriving DecidableEq, Repr

/-- The state of `main` after the argument loop, for the vector `argv`
(`argv[0]` is the program name), as it is once the `QApplication` constructor
has taken out the arguments Qt handles itself. -/
def parsed (argv : List CString) : MainState :=
  parseLoop (argv.drop 1) {}

/-- The part of `main` after the argument loop. -/
def startSession (st : MainState) : MainResult :=
  if st.argUrl = none || st.argOut = [] || st.argHelp ≠ 0 then
    .usage
  else
    let req := { st.req with url := st.argUrl }
    let main := CutyCapt.new st.page st.argOut st.argDelay st.format
    let main := if st.argMaxWait > 0 then
        { main with timers := main.timers ++ [(st.argMaxWait, Slot.Timeout)] } else main
    let page := main.mPage
    let page := match st.argUserStyle with
      | some u => { page with userStyleSheetUrl := some u }
      | none => page
    let page := match st.argIconDbPath with
      | some _ => { page with iconDatabasePath := some st.argUserStyle }
      | none => page
    let page := { page with
      scrollBarsOff := (true, true),
      viewportSize := ⟨st.argMinWidth, st.argDefHeight⟩ }
    .exec { main with mPage := page, loads := main.loads ++ [⟨req, st.method, st.body⟩] }

/-- The function `main`. -/
def main (argv : List CString) : MainResult :=
  startSession (parsed argv)

/-! ## The event loop -/

/-- What the event loop delivers to the session: the two signals connected
in `main`, and the expiry of a single-shot timer. -/
inductive Event
  | initialLayoutCompleted
  | loadFinished (ok : Bool)
  | timer (slot : Slot)
  deriving DecidableEq, Repr

/-- The pending timers without the oldest one connected to `slot`, when there
is one. -/
def takeTimer (slot : Slot) : List (Int × Slot) → Option (List (Int × Slot))
  | [] => none
  | t :: rest => if t.2 = slot then some rest else (takeTimer slot rest).map (t :: ·)

/-- The slot a timer is connected to. -/
def Slot.call : Slot → World → World
  | .Timeout => Cuty.Timeout
  | .Delayed => Cuty.Delayed

/-- Delivery of one event; a timer event is possible only for a pending timer,
which is single-shot. -/
def deliver (e : Event) (w : World) : Option World :=
  match e with
  | .initialLayoutCompleted => some (InitialLayoutCompleted w)
  | .loadFinished ok => some (DocumentComplete ok w)
  | .timer slot =>
    match takeTimer slot w.timers with
    | none => none
    | some rest => some (slot.call { w with timers := rest })

/-- Delivery of a sequence of events, in order. -/
def run (evs : List Event) (w : World) : Option World :=
  evs.foldlM (fun w e => deliver e w) w

/-! ## Notions used to state the properties -/

/-- The rows of `CutyExtMap` that the loops visit: those before the
terminating `OtherFormat` row. -/
def extMapRows : List ExtMapEntry :=
  CutyExtMap.takeWhile (fun e => e.id ≠ OtherFormat)

/-- Resolution by extension in the words of the specification: the format of
the first row, in table order, whose extension is a suffix of the path, and
`OtherFormat` when no row has one. -/
def firstByExtension (path : CString) : OutputFormat :=
  match extMapRows.find? (fun e => decide (e.extension <:+ path)) with
  | some e => e.id
  | none => OtherFormat

/-- The strategy table of the specification: the kind of export each format
stands for, for a viewport of the given size. -/
def strategy (e : ExtMapEntry) (size : QSize) : ExportKind :=
  match e.id with
  | SvgFormat => .svg size
  | PdfFormat => .print "A4"
  | PsFormat => .print "A4"
  | InnerTextFormat => .text "utf-8" .toPlainText
  | HtmlFormat => .text "utf-8" .toHtml
  | RenderTreeFormat => .text "utf-8" .renderTreeDump
  | _ => .image size "Format_ARGB32" (some e.identifier)

/-- The callbacks that take the snapshot. -/
inductive Firing
  | Timeout | Delayed | TryDelayedRender
  deriving DecidableEq, Repr

/-- The slot a firing stands for. -/
def Firing.call : Firing → World → World
  | .Timeout => Cuty.Timeout
  | .Delayed => Cuty.Delayed
  | .TryDelayedRender => Cuty.TryDelayedRender

/-- A session for `page.png` with no delay, before any signal. -/
def pngSession : World :=
  CutyCapt.new {} "page.png".toList 0 PngFormat

/-- A session for `page.html` whose output file cannot be opened. -/
def unwritableSession : World :=
  { CutyCapt.new {} "page.html".toList 0 HtmlFormat with fileOpens := false }

/-- The session started by `--url=u --out=page.png --min-width=800`, with the
engine reporting a content size of 0 x 0 (the case the comment in
`saveSnapshot` describes). -/
def narrowSession : World :=
  match main ["CutyCapt".toList, "--url=u".toList, "--out=page.png".toList,
      "--min-width=800".toList] with
  | .exec w => { w with mPage := { w.mPage with contentsSize := ⟨0, 0⟩ } }
  | .usage => pngSession

/-- A session with a delay of 500 ms, before any signal. -/
def delayedSession : World :=
  CutyCapt.new {} "page.png".toList 500 PngFormat

/-- The branch of the `--name=value` chain that the loop body takes for the
argument `s`; `none` when `s` is one of the three flags or holds no `=`. -/
def branchOfArg (s : CString) : Option Branch :=
  if strcmp "--silent".toList s = 0 then none
  else if strcmp "--help".toList s = 0 then none
  else if strcmp "--verbose".toList s = 0 then none
  else
    match strchr s '=' with
    | none => none
    | some value => some (branchOf s (s.length - value.length))

/-- The NUL character, which ends a C string and so is not among its
characters. -/
def nul : Char := Char.ofNat 0

/-- A session with no delay that has seen the load finish but not yet the
initial layout. -/
def loadedSession : World :=
  DocumentComplete true pngSession

/-- A session with no delay that has seen the initial layout but not yet the
load finish. -/
def laidOutSession : World :=
  InitialLayoutCompleted pngSession

end Cuty

/-! ## Properties of the capture session -/

namespace Cuty

open OutputFormat

theorem saveSnapshot_exports (w : World) :
    (saveSnapshot w).exports = w.exports ++
      [⟨exportKind w.mFormat w.mPage.contentsSize (identifierLoop w.mFormat CutyExtMap none),
        w.mOutput,
        exportOk w (exportKind w.mFormat w.mPage.contentsSize
          (identifierLoop w.mFormat CutyExtMap none))⟩] := rfl

/-- C2: from a session that has seen neither signal, the two arrival orders of
`InitialLayoutCompleted` and `DocumentComplete` end in the same session, for
any values of the `ok` flag; the first signal only sets its flag and the second
one calls `TryDelayedRender`, once. -/
theorem readiness_order_commutes (w : World) (ok ok2 : Bool)
    (hl : w.mSawInitialLayout = false) (hd : w.mSawDocumentComplete = false) :
    DocumentComplete ok (InitialLayoutCompleted w)
      = InitialLayoutCompleted (DocumentComplete ok2 w) ∧
    InitialLayoutCompleted w = { w with mSawInitialLayout := true } ∧
    DocumentComplete ok w = { w with mSawDocumentComplete := true } ∧
    DocumentComplete ok (InitialLayoutCompleted w)
      = TryDelayedRender { w with mSawInitialLayout := true, mSawDocumentComplete := true } ∧
    (InitialLayoutCompleted w).tryDelayedRenderCalls = w.tryDelayedRenderCalls ∧
    (DocumentComplete ok w).tryDelayedRenderCalls = w.tryDelayedRenderCalls ∧
    (DocumentComplete ok (InitialLayoutCompleted w)).tryDelayedRenderCalls
      = w.tryDelayedRenderCalls + 1 ∧
    (InitialLayoutCompleted (DocumentComplete ok2 w)).tryDelayedRenderCalls
      = w.tryDelayedRenderCalls + 1 := by
  have e1 : InitialLayoutCompleted w = { w with mSawInitialLayout := true } := by
    simp [InitialLayoutCompleted, hd]
  have e2 : ∀ b, DocumentComplete b w = { w with mSawDocumentComplete := true } := by
    intro b; simp [DocumentComplete, hl]
  have e3 : ∀ b, DocumentComplete b (InitialLayoutCompleted w)
      = TryDelayedRender { w with mSawInitialLayout := true, mSawDocumentComplete := true } := by
    intro b; rw [e1]; simp [DocumentComplete]
  have e4 : ∀ b, InitialLayoutCompleted (DocumentComplete b w)
      = TryDelayedRender { w with mSawInitialLayout := true, mSawDocumentComplete := true } := by
    intro b; rw [e2]; simp [InitialLayoutCompleted]
  have e5 : ∀ v : World, (TryDelayedRender v).tryDelayedRenderCalls
      = v.tryDelayedRenderCalls + 1 := by
    intro v; simp only [TryDelayedRender]; split <;> rfl
  refine ⟨by rw [e3, e4], e1, e2 ok, e3 ok, by rw [e1], by rw [e2], ?_, ?_⟩
  · rw [e3, e5]
  · rw [e4, e5]

theorem readiness_order_commutes_witness :
    DocumentComplete true (InitialLayoutCompleted pngSession)
      = InitialLayoutCompleted (DocumentComplete false pngSession) :=
  (readiness_order_commutes pngSession true false rfl rfl).1


theorem identifierLoop_row (e : ExtMapEntry) (he : e ∈ extMapRows) :
    identifierLoop e.id CutyExtMap none = some e.identifier := by
  revert e
  decide

theorem exportKind_row (e : ExtMapEntry) (he : e ∈ extMapRows) (size : QSize) :
    exportKind e.id size (identifierLoop e.id CutyExtMap none) = strategy e size := by
  rw [identifierLoop_row e he]
  have h : e ∈ extMapRows → exportKind e.id size (some e.identifier) = strategy e size := by
    simp only [extMapRows, CutyExtMap, List.takeWhile, decide_not]
    simp
    rintro (h | h | h | h | h | h | h | h | h | h | h | h | h | h | h) <;> (subst h; rfl)
  exact h he

/-- C10: for every row of `CutyExtMap` before the terminating one, a call of
`saveSnapshot` on a session with that row's format appends exactly one export,
of the kind the strategy table gives (vector paint, A4 print, one of the three
texts in UTF-8 and never the string "bug", or an ARGB32 raster saved under the
row's identifier), written to `mOutput` and sized to the content size. -/
theorem saveSnapshot_dispatch (e : ExtMapEntry) (w : World) (he : e ∈ extMapRows)
    (hw : w.mFormat = e.id) :
    (saveSnapshot w).exports
        = w.exports ++ [⟨strategy e w.mPage.contentsSize, w.mOutput,
            exportOk w (strategy e w.mPage.contentsSize)⟩] ∧
      (∀ codec, strategy e w.mPage.contentsSize ≠ .text codec .bug) ∧
      (saveSnapshot w).exits = w.exits := by
  refine ⟨?_, ?_, rfl⟩
  · rw [saveSnapshot_exports, hw, exportKind_row e he]
  · have h : e ∈ extMapRows → ∀ codec, strategy e w.mPage.contentsSize ≠ .text codec .bug := by
      simp only [extMapRows, CutyExtMap, List.takeWhile, decide_not]
      simp
      rintro (h | h | h | h | h | h | h | h | h | h | h | h | h | h | h) <;>
        (subst h; intro codec; simp [strategy])
    exact h he

theorem saveSnapshot_dispatch_witness :
    (⟨PngFormat, ".png".toList, "png".toList⟩ : ExtMapEntry) ∈ extMapRows ∧
    (saveSnapshot pngSession).exports
        = [⟨.image ⟨0, 0⟩ "Format_ARGB32" (some "png".toList), "page.png".toList, true⟩] :=
  ⟨by decide, (saveSnapshot_dispatch ⟨PngFormat, ".png".toList, "png".toList⟩ pngSession
    (by decide) rfl).1⟩

theorem Firing_call_exits (f : Firing) (w : World) :
    (f.call w).exits = if f = Firing.TryDelayedRender ∧ w.mDelay > 0 then w.exits
      else w.exits ++ [0] := by
  cases f
  · simp [Firing.call, Timeout, appExit, saveSnapshot]
  · simp [Firing.call, Delayed, appExit, saveSnapshot]
  · by_cases h : w.mDelay > 0 <;> simp [Firing.call, TryDelayedRender, appExit, saveSnapshot, h]

theorem Firing_call_printed (f : Firing) (w : World) : (f.call w).printed = w.printed := by
  cases f
  · rfl
  · rfl
  · simp only [Firing.call, TryDelayedRender]
    split <;> rfl

/-- C8 (as the code has it): the outcome of the export is not looked at.  Every
callback that takes the snapshot requests exit with return code 0 and prints
nothing, whether Qt reported success for the export or not; the only firing
that requests no exit is `TryDelayedRender` with a positive delay, which only
schedules the timer. -/
theorem exit_code_ignores_export_outcome (f : Firing) (w : World) :
    (f.call w).exits
      = (if f = Firing.TryDelayedRender ∧ w.mDelay > 0 then w.exits else w.exits ++ [0]) ∧
    (f.call w).printed = w.printed ∧
    (f.call { w with fileOpens := false }).exits = (f.call w).exits ∧
    (f.call { w with encoderSaves := false }).exits = (f.call w).exits := by
  refine ⟨Firing_call_exits f w, Firing_call_printed f w, ?_, ?_⟩
  · rw [Firing_call_exits, Firing_call_exits]
  · rw [Firing_call_exits, Firing_call_exits]

/-- C8 fails as stated: on a session whose output file cannot be opened, the
export made by `Timeout` is a failed one, and the exit code requested is 0. -/
theorem failed_export_exits_zero :
    (Timeout unwritableSession).exports
      = [⟨.text "utf-8" .toHtml, "page.html".toList, false⟩] ∧
    (Timeout unwritableSession).exits = [0] ∧
    (Timeout unwritableSession).printed = 0 := by
  decide

theorem runBranch_argDefHeight (value : CString) (st : MainState) (b : Branch) :
    (runBranch value st b).1.argDefHeight = st.argDefHeight := by
  cases b <;> simp only [runBranch] <;> first | rfl | (split <;> rfl)

theorem parseArg_argDefHeight (s : CString) (st : MainState) :
    (parseArg s st).1.argDefHeight = st.argDefHeight := by
  unfold parseArg
  split_ifs
  · rfl
  · rfl
  · rfl
  · split
    · rfl
    · exact runBranch_argDefHeight _ _ _

theorem parseLoop_argDefHeight (args : List CString) :
    ∀ st : MainState, (parseLoop args st).argDefHeight = st.argDefHeight := by
  induction args with
  | nil => intro st; rfl
  | cons s rest ih =>
    intro st
    have h := parseArg_argDefHeight s st
    unfold parseLoop
    split
    · next st1 heq => rw [ih, ← h, heq]
    · next st1 heq => rw [← h, heq]

/-- C9 (as the code has it): `saveSnapshot` sets the viewport to the content
size as reported, whatever the minimum width; its width is at least a given
bound exactly when the content width is.  The value of `--min-width` is the
width of the viewport that `main` sets before the load, with height 600. -/
theorem viewport_is_content_size (w : World) (minWidth : Int) (argv : List CString) :
    (saveSnapshot w).mPage.viewportSize = w.mPage.contentsSize ∧
    (minWidth ≤ (saveSnapshot w).mPage.viewportSize.width ↔
      minWidth ≤ w.mPage.contentsSize.width) ∧
    ∀ v, main argv = .exec v →
      v.mPage.viewportSize = ⟨(parsed argv).argMinWidth, 600⟩ := by
  refine ⟨rfl, Iff.rfl, ?_⟩
  intro v hv
  simp only [main, startSession] at hv
  split at hv
  · cases hv
  · injection hv with hv
    subst hv
    have hh : (parsed argv).argDefHeight = 600 := parseLoop_argDefHeight _ _
    simp [hh]

theorem viewport_is_content_size_witness :
    (match main ["CutyCapt".toList, "--url=u".toList, "--out=page.png".toList,
        "--min-width=640".toList] with
      | .exec v => v.mPage.viewportSize
      | .usage => ⟨0, 0⟩) = ⟨640, 600⟩ :=
  (viewport_is_content_size pngSession 0 ["CutyCapt".toList, "--url=u".toList,
    "--out=page.png".toList, "--min-width=640".toList]).2.2 _ (by decide)

/-- C9 fails as stated: with `--min-width=800` and a page that reports a content
size of 0 x 0, the viewport set by `saveSnapshot` is 0 wide, below the minimum. -/
theorem viewport_narrower_than_min_width :
    narrowSession.mPage.viewportSize = ⟨800, 600⟩ ∧
    (saveSnapshot narrowSession).mPage.viewportSize = ⟨0, 0⟩ ∧
    ¬ (800 ≤ (saveSnapshot narrowSession).mPage.viewportSize.width) := by
  decide

theorem parseArg_out (p : CString) (st : MainState) :
    parseArg ("--out=".toList ++ p) st = runBranch p st .out := by
  have hs : "--out=".toList ++ p = '-' :: '-' :: 'o' :: 'u' :: 't' :: '=' :: p := rfl
  rw [hs]
  have h1 : strcmp "--silent".toList ('-' :: '-' :: 'o' :: 'u' :: 't' :: '=' :: p) = 4 := rfl
  have h2 : strcmp "--help".toList ('-' :: '-' :: 'o' :: 'u' :: 't' :: '=' :: p) = -7 := rfl
  have h3 : strcmp "--verbose".toList ('-' :: '-' :: 'o' :: 'u' :: 't' :: '=' :: p) = 7 := rfl
  have h4 : strchr ('-' :: '-' :: 'o' :: 'u' :: 't' :: '=' :: p) '=' = some ('=' :: p) := rfl
  have h5 : branchOf ('-' :: '-' :: 'o' :: 'u' :: 't' :: '=' :: p) 5 = .out := rfl
  have h6 : ('-' :: '-' :: 'o' :: 'u' :: 't' :: '=' :: p).length - ('=' :: p).length = 5 := by
    simp
  unfold parseArg
  rw [h1, h2, h3, h4]
  simp only [h6, nameValue, h5, List.drop_succ_cons, List.drop_zero]
  rfl

theorem parseArg_outFormat (v : CString) (st : MainState) :
    parseArg ("--out-format=".toList ++ v) st = runBranch v st .outFormat := by
  have hs : "--out-format=".toList ++ v
      = '-' :: '-' :: 'o' :: 'u' :: 't' :: '-' :: 'f' :: 'o' :: 'r' :: 'm' :: 'a' :: 't' :: '='
        :: v := rfl
  rw [hs]
  have h1 : strcmp "--silent".toList ('-' :: '-' :: 'o' :: 'u' :: 't' :: '-' :: 'f' :: 'o' ::
      'r' :: 'm' :: 'a' :: 't' :: '=' :: v) = 4 := rfl
  have h2 : strcmp "--help".toList ('-' :: '-' :: 'o' :: 'u' :: 't' :: '-' :: 'f' :: 'o' ::
      'r' :: 'm' :: 'a' :: 't' :: '=' :: v) = -7 := rfl
  have h3 : strcmp "--verbose".toList ('-' :: '-' :: 'o' :: 'u' :: 't' :: '-' :: 'f' :: 'o' ::
      'r' :: 'm' :: 'a' :: 't' :: '=' :: v) = 7 := rfl
  have h4 : strchr ('-' :: '-' :: 'o' :: 'u' :: 't' :: '-' :: 'f' :: 'o' ::
      'r' :: 'm' :: 'a' :: 't' :: '=' :: v) '=' = some ('=' :: v) := rfl
  have h5 : branchOf ('-' :: '-' :: 'o' :: 'u' :: 't' :: '-' :: 'f' :: 'o' ::
      'r' :: 'm' :: 'a' :: 't' :: '=' :: v) 12 = .outFormat := rfl
  have h6 : ('-' :: '-' :: 'o' :: 'u' :: 't' :: '-' :: 'f' :: 'o' ::
      'r' :: 'm' :: 'a' :: 't' :: '=' :: v).length - ('=' :: v).length = 12 := by
    simp
  unfold parseArg
  rw [h1, h2, h3, h4]
  simp only [h6, nameValue, h5, List.drop_succ_cons, List.drop_zero]
  rfl

theorem outLoop_no_hit (p : CString) :
    ∀ (rows : List ExtMapEntry) (acc : OutputFormat),
      (∀ e ∈ rows.takeWhile (fun e => e.id ≠ OtherFormat), ¬ e.extension <:+ p) →
      outLoop p rows acc = acc := by
  intro rows
  induction rows with
  | nil => intro acc _; rfl
  | cons e rest ih =>
    intro acc h
    unfold outLoop
    by_cases he : e.id = OtherFormat
    · simp [he]
    · have hmem : e ∈ (e :: rest).takeWhile (fun e => e.id ≠ OtherFormat) := by
        simp [List.takeWhile, he]
      have hno : endsWith p e.extension = false := by
        rw [endsWith, Bool.eq_false_iff, Ne, List.isSuffixOf_iff_suffix]
        exact h e hmem
      rw [if_neg he, hno]
      apply ih
      intro x hx
      apply h
      have htw : (e :: rest).takeWhile (fun e => e.id ≠ OtherFormat)
          = e :: rest.takeWhile (fun e => e.id ≠ OtherFormat) := by
        simp [List.takeWhile, he]
      rw [htw]
      exact List.mem_cons_of_mem _ hx

theorem outLoop_first (p : CString) :
    ∀ (rows : List ExtMapEntry) (acc : OutputFormat),
      (rows.takeWhile (fun e => e.id ≠ OtherFormat)).Pairwise
        (fun a b => ¬ (a.extension <:+ p ∧ b.extension <:+ p)) →
      outLoop p rows acc =
        match (rows.takeWhile (fun e => e.id ≠ OtherFormat)).find?
            (fun e => decide (e.extension <:+ p)) with
        | some e => e.id
        | none => acc := by
  intro rows
  induction rows with
  | nil => intro acc _; rfl
  | cons e rest ih =>
    intro acc h
    unfold outLoop
    by_cases he : e.id = OtherFormat
    · simp [he, List.takeWhile]
    · have htw : (e :: rest).takeWhile (fun e => e.id ≠ OtherFormat)
          = e :: rest.takeWhile (fun e => e.id ≠ OtherFormat) := by
        simp [List.takeWhile, he]
      rw [htw] at h
      rw [htw, if_neg he]
      obtain ⟨hhead, htail⟩ := List.pairwise_cons.mp h
      by_cases hit : e.extension <:+ p
      · have hyes : endsWith p e.extension = true := by simpa [endsWith] using hit
        rw [hyes, List.find?_cons_of_pos _ (by simpa using hit)]
        simp only [if_true]
        apply outLoop_no_hit
        intro x hx hxp
        exact hhead x hx ⟨hit, hxp⟩
      · have hno : endsWith p e.extension = false := by
          rw [endsWith, Bool.eq_false_iff, Ne, List.isSuffixOf_iff_suffix]
          exact hit
        rw [hno, List.find?_cons_of_neg _ (by simpa using hit)]
        simpa using ih acc htail

theorem extMapRows_extensions :
    extMapRows.Pairwise
      (fun a b => ¬ a.extension <:+ b.extension ∧ ¬ b.extension <:+ a.extension) := by
  decide

theorem outLoop_CutyExtMap (p : CString) :
    outLoop p CutyExtMap OtherFormat = firstByExtension p := by
  have h := outLoop_first p CutyExtMap OtherFormat
    (extMapRows_extensions.imp (fun {a b} hab hp => by
      rcases List.suffix_or_suffix_of_suffix hp.1 hp.2 with h | h
      · exact hab.1 h
      · exact hab.2 h))
  rw [h]
  rfl

theorem parseLoop_cons_next (s : CString) (rest : List CString) (st st1 : MainState)
    (h : parseArg s st = (st1, Flow.next)) : parseLoop (s :: rest) st = parseLoop rest st1 := by
  rw [parseLoop, h]

theorem parseLoop_keeps_format (pre : List CString)
    (h : ∀ a ∈ pre, ∀ st, (parseArg a st).2 = Flow.next ∧ (parseArg a st).1.format = st.format) :
    ∀ (rest : List CString) (st : MainState),
      parseLoop (pre ++ rest) st = parseLoop rest (parseLoop pre st) ∧
      (parseLoop pre st).format = st.format := by
  induction pre with
  | nil => intro rest st; exact ⟨rfl, rfl⟩
  | cons a pre ih =>
    intro rest st
    have ha := h a (List.mem_cons_self _ _) st
    have hst : parseArg a st = ((parseArg a st).1, Flow.next) := by
      rw [← ha.1]
    have ih2 := ih (fun b hb => h b (List.mem_cons_of_mem _ hb)) rest (parseArg a st).1
    rw [List.cons_append, parseLoop_cons_next a _ st _ hst, parseLoop_cons_next a _ st _ hst,
      ih2.1, ih2.2, ha.2]
    exact ⟨rfl, rfl⟩

theorem extMapRows_id_ne (e : ExtMapEntry) (he : e ∈ extMapRows) : e.id ≠ OtherFormat := by
  revert e
  decide

theorem outFormatLoop_row (e : ExtMapEntry) (he : e ∈ extMapRows) (acc : OutputFormat) :
    outFormatLoop e.identifier CutyExtMap acc = e.id := by
  have h : e ∈ extMapRows → outFormatLoop e.identifier CutyExtMap acc = e.id := by
    simp only [extMapRows, CutyExtMap, List.takeWhile, decide_not]
    simp
    rintro (h | h | h | h | h | h | h | h | h | h | h | h | h | h | h) <;>
      (subst h; cases acc <;> rfl)
  exact h he

theorem main_exec_mFormat (argv : List CString) (w : World) (h : main argv = .exec w) :
    w.mFormat = (parsed argv).format := by
  simp only [main, startSession] at h
  split at h
  · cases h
  · injection h with h
    subst h
    simp only [CutyCapt.new]
    split <;> rfl

/-- C5: when one argument is `--out=p` and every other argument leaves the
format alone and does not stop the loop, the format `main` resolves, and passes
to the session, is the format of the first row of `CutyExtMap` whose extension
is a suffix of `p`, and `OtherFormat` when no row has one. -/
theorem out_resolves_by_extension (prog : CString) (pre post : List CString) (p : CString)
    (hother : ∀ a ∈ pre ++ post, ∀ st,
      (parseArg a st).2 = Flow.next ∧ (parseArg a st).1.format = st.format) :
    (parsed (prog :: (pre ++ ("--out=".toList ++ p) :: post))).format = firstByExtension p ∧
    ∀ w, main (prog :: (pre ++ ("--out=".toList ++ p) :: post)) = .exec w →
      w.mFormat = firstByExtension p := by
  have hpre := parseLoop_keeps_format pre
    (fun a ha => hother a (List.mem_append_left _ ha))
  have hpost := parseLoop_keeps_format post
    (fun a ha => hother a (List.mem_append_right _ ha))
  have key : (parsed (prog :: (pre ++ ("--out=".toList ++ p) :: post))).format
      = firstByExtension p := by
    have h1 := hpre (("--out=".toList ++ p) :: post) {}
    have h2 : parseArg ("--out=".toList ++ p) (parseLoop pre {})
        = ((runBranch p (parseLoop pre {}) .out).1, Flow.next) := by
      rw [parseArg_out]; rfl
    have h3 := hpost [] (runBranch p (parseLoop pre {}) .out).1
    rw [List.append_nil] at h3
    simp only [parsed, List.drop_succ_cons, List.drop_zero]
    rw [h1.1, parseLoop_cons_next _ _ _ _ h2, h3.2]
    have h4 : (parseLoop pre {}).format = OtherFormat := h1.2
    simp only [runBranch, h4, if_true]
    exact outLoop_CutyExtMap p
  exact ⟨key, fun w hw => by rw [main_exec_mFormat _ w hw, key]⟩

theorem out_resolves_by_extension_witness :
    (parsed ["CutyCapt".toList, "--url=u".toList, "--out=".toList ++ "page.png".toList,
      "--delay=5".toList]).format = firstByExtension "page.png".toList ∧
    firstByExtension "page.png".toList = PngFormat :=
  ⟨(out_resolves_by_extension "CutyCapt".toList ["--url=u".toList] ["--delay=5".toList]
      "page.png".toList (by
        intro a ha st
        simp only [List.cons_append, List.nil_append, List.mem_cons, List.mem_singleton,
          List.not_mem_nil, or_false] at ha
        rcases ha with h | h <;> (subst h; exact ⟨rfl, rfl⟩))).1,
    by decide⟩

/-- C6: when one argument is `--out=p`, another is `--out-format=f` for the
identifier `f` of a row of `CutyExtMap`, and every other argument leaves the
format alone and does not stop the loop, the format `main` resolves, and passes
to the session, is the format of that row, whichever of the two comes first
and whatever the extension of `p`. -/
theorem explicit_format_overrides (prog : CString) (pre mid post : List CString)
    (p : CString) (e : ExtMapEntry) (he : e ∈ extMapRows)
    (hother : ∀ a ∈ pre ++ mid ++ post, ∀ st,
      (parseArg a st).2 = Flow.next ∧ (parseArg a st).1.format = st.format) :
    (parsed (prog :: (pre ++ ("--out=".toList ++ p) ::
      (mid ++ ("--out-format=".toList ++ e.identifier) :: post)))).format = e.id ∧
    (parsed (prog :: (pre ++ ("--out-format=".toList ++ e.identifier) ::
      (mid ++ ("--out=".toList ++ p) :: post)))).format = e.id ∧
    (∀ w, main (prog :: (pre ++ ("--out=".toList ++ p) ::
      (mid ++ ("--out-format=".toList ++ e.identifier) :: post))) = .exec w →
        w.mFormat = e.id) ∧
    (∀ w, main (prog :: (pre ++ ("--out-format=".toList ++ e.identifier) ::
      (mid ++ ("--out=".toList ++ p) :: post))) = .exec w → w.mFormat = e.id) := by
  have hpre := parseLoop_keeps_format pre
    (fun a ha => hother a (List.mem_append_left _ (List.mem_append_left _ ha)))
  have hmid := parseLoop_keeps_format mid
    (fun a ha => hother a (List.mem_append_left _ (List.mem_append_right _ ha)))
  have hpost := parseLoop_keeps_format post
    (fun a ha => hother a (List.mem_append_right _ ha))
  have hne := extMapRows_id_ne e he
  have hout : ∀ st, parseArg ("--out=".toList ++ p) st
      = ((runBranch p st .out).1, Flow.next) := by
    intro st; rw [parseArg_out]; rfl
  have hfmt : ∀ st, parseArg ("--out-format=".toList ++ e.identifier) st
      = ({ st with format := e.id }, Flow.next) := by
    intro st
    rw [parseArg_outFormat]
    simp only [runBranch, outFormatLoop_row e he, if_neg hne]
  have k1 : (parsed (prog :: (pre ++ ("--out=".toList ++ p) ::
      (mid ++ ("--out-format=".toList ++ e.identifier) :: post)))).format = e.id := by
    simp only [parsed, List.drop_succ_cons, List.drop_zero]
    rw [(hpre _ _).1, parseLoop_cons_next _ _ _ _ (hout _), (hmid _ _).1,
      parseLoop_cons_next _ _ _ _ (hfmt _)]
    have h3 := hpost [] { parseLoop mid (runBranch p (parseLoop pre {}) .out).1 with
      format := e.id }
    rw [List.append_nil] at h3
    rw [h3.2]
  have k2 : (parsed (prog :: (pre ++ ("--out-format=".toList ++ e.identifier) ::
      (mid ++ ("--out=".toList ++ p) :: post)))).format = e.id := by
    simp only [parsed, List.drop_succ_cons, List.drop_zero]
    rw [(hpre _ _).1, parseLoop_cons_next _ _ _ _ (hfmt _), (hmid _ _).1,
      parseLoop_cons_next _ _ _ _ (hout _)]
    have h3 := hpost [] (runBranch p (parseLoop mid { parseLoop pre {} with
      format := e.id }) .out).1
    rw [List.append_nil] at h3
    rw [h3.2]
    have h4 : (parseLoop mid { parseLoop pre {} with format := e.id }).format = e.id :=
      (hmid [] _).2
    simp only [runBranch, h4, if_neg hne]
  exact ⟨k1, k2, fun w hw => by rw [main_exec_mFormat _ w hw, k1],
    fun w hw => by rw [main_exec_mFormat _ w hw, k2]⟩

theorem explicit_format_overrides_witness :
    (parsed ["CutyCapt".toList, "--url=u".toList, "--out=".toList ++ "page.png".toList,
      "--out-format=".toList ++ "svg".toList]).format = SvgFormat ∧
    (parsed ["CutyCapt".toList, "--url=u".toList, "--out-format=".toList ++ "svg".toList,
      "--out=".toList ++ "page.png".toList]).format = SvgFormat :=
  have h := explicit_format_overrides "CutyCapt".toList ["--url=u".toList] [] []
    "page.png".toList ⟨SvgFormat, ".svg".toList, "svg".toList⟩ (by decide) (by
      intro a ha st
      simp only [List.append_nil, List.mem_singleton] at ha
      subst ha; exact ⟨rfl, rfl⟩)
  ⟨h.1, h.2.1⟩

theorem main_exec_loads (argv : List CString) (w : World) (h : main argv = .exec w) :
    w.loads.length = 1 ∧ w.exports = [] ∧ w.mOutput = (parsed argv).argOut := by
  simp only [main, startSession] at h
  split at h
  · cases h
  · injection h with h
    subst h
    simp only [CutyCapt.new]
    split <;> simp

/-- C7 (as the code has it): an unresolved format is no ground for rejection.
When the argument loop leaves the format at `OtherFormat`, `main` prints usage
exactly when `--url` is missing, the output path is empty or `argHelp` was set;
otherwise it constructs the session with `OtherFormat` and starts the load, and
`saveSnapshot` then takes the raster branch with a null encoder identifier. -/
theorem unresolved_format_starts_session (argv : List CString)
    (hf : (parsed argv).format = OtherFormat) :
    (main argv = .usage ↔
      ((parsed argv).argUrl = none ∨ (parsed argv).argOut = [] ∨ (parsed argv).argHelp ≠ 0)) ∧
    ∀ w, main argv = .exec w →
      w.mFormat = OtherFormat ∧ w.loads.length = 1 ∧
      (saveSnapshot w).exports = [⟨.image w.mPage.contentsSize "Format_ARGB32" none,
        (parsed argv).argOut, w.fileOpens && w.encoderSaves⟩] := by
  constructor
  · simp only [main, startSession]
    constructor
    · intro h
      split at h
      · next hc => simpa [or_assoc] using hc
      · cases h
    · intro h
      rw [if_pos (by simpa [or_assoc] using h)]
  · intro w hw
    have h1 := main_exec_mFormat argv w hw
    have h2 := main_exec_loads argv w hw
    rw [hf] at h1
    refine ⟨h1, h2.1, ?_⟩
    rw [saveSnapshot_exports, h1, h2.2.1, h2.2.2]
    rfl

theorem unresolved_format_starts_session_witness :
    (parsed ["CutyCapt".toList, "--url=u".toList, "--out=page.unknown".toList]).format
      = OtherFormat ∧
    ¬ (main ["CutyCapt".toList, "--url=u".toList, "--out=page.unknown".toList] = .usage) :=
  ⟨by decide, fun h =>
    absurd ((unresolved_format_starts_session
      ["CutyCapt".toList, "--url=u".toList, "--out=page.unknown".toList] (by decide)).1.mp h)
      (by decide)⟩

/-- C7 fails as stated: for `--url=u --out=page.unknown`, `main` does not print
usage; it constructs the session with `OtherFormat` and starts the load, and
the snapshot taken on timeout is a raster export with a null identifier. -/
theorem unknown_extension_not_rejected :
    ∃ w, main ["CutyCapt".toList, "--url=u".toList, "--out=page.unknown".toList] = .exec w ∧
      w.mFormat = OtherFormat ∧ w.loads.length = 1 ∧
      (Timeout w).exports
        = [⟨.image ⟨0, 0⟩ "Format_ARGB32" none, "page.unknown".toList, true⟩] :=
  ⟨_, rfl, rfl, rfl, rfl⟩

theorem run_nil (w : World) : run [] w = some w := rfl

theorem run_snoc (evs : List Event) (e : Event) (w : World) :
    run (evs ++ [e]) w = (run evs w).bind (deliver e) := by
  simp [run, List.foldlM_append]

theorem takeTimer_some (slot : Slot) :
    ∀ (timers rest : List (Int × Slot)), takeTimer slot timers = some rest →
      (∃ t ∈ timers, t.2 = slot) ∧ ∀ t ∈ rest, t ∈ timers := by
  intro timers
  induction timers with
  | nil => intro rest h; cases h
  | cons t ts ih =>
    intro rest h
    unfold takeTimer at h
    by_cases ht : t.2 = slot
    · rw [if_pos ht] at h
      injection h with h
      subst h
      exact ⟨⟨t, List.mem_cons_self _ _, ht⟩, fun x hx => List.mem_cons_of_mem _ hx⟩
    · rw [if_neg ht] at h
      cases hts : takeTimer slot ts with
      | none => rw [hts] at h; cases h
      | some r =>
        rw [hts] at h
        injection h with h
        subst h
        obtain ⟨⟨x, hx, hxs⟩, hsub⟩ := ih r hts
        refine ⟨⟨x, List.mem_cons_of_mem _ hx, hxs⟩, ?_⟩
        intro y hy
        rcases List.mem_cons.mp hy with hy | hy
        · rw [hy]; exact List.mem_cons_self _ _
        · exact List.mem_cons_of_mem _ (hsub y hy)

theorem TryDelayedRender_pos (v : World) (h : 0 < v.mDelay) :
    TryDelayedRender v = { v with
      tryDelayedRenderCalls := v.tryDelayedRenderCalls + 1,
      timers := v.timers ++ [(v.mDelay, Slot.Delayed)] } := by
  simp [TryDelayedRender, h]

theorem InitialLayoutCompleted_pos (v : World) (h : 0 < v.mDelay) :
    (InitialLayoutCompleted v).exports = v.exports ∧
    (InitialLayoutCompleted v).mDelay = v.mDelay ∧
    (InitialLayoutCompleted v).mSawInitialLayout = true ∧
    (InitialLayoutCompleted v).mSawDocumentComplete = v.mSawDocumentComplete ∧
    ∀ t ∈ (InitialLayoutCompleted v).timers,
      t ∈ v.timers ∨ (t = (v.mDelay, Slot.Delayed) ∧ v.mSawDocumentComplete = true) := by
  unfold InitialLayoutCompleted
  cases hd : v.mSawDocumentComplete
  · simp [hd]
  · simp [hd, TryDelayedRender, h]

theorem DocumentComplete_pos (ok : Bool) (v : World) (h : 0 < v.mDelay) :
    (DocumentComplete ok v).exports = v.exports ∧
    (DocumentComplete ok v).mDelay = v.mDelay ∧
    (DocumentComplete ok v).mSawDocumentComplete = true ∧
    (DocumentComplete ok v).mSawInitialLayout = v.mSawInitialLayout ∧
    ∀ t ∈ (DocumentComplete ok v).timers,
      t ∈ v.timers ∨ (t = (v.mDelay, Slot.Delayed) ∧ v.mSawInitialLayout = true) := by
  unfold DocumentComplete
  cases hd : v.mSawInitialLayout
  · simp [hd]
  · simp [hd, TryDelayedRender, h]

theorem delay_trace_invariant (w : World) (hD : 0 < w.mDelay)
    (hl : w.mSawInitialLayout = false) (hd : w.mSawDocumentComplete = false)
    (ht : ∀ t ∈ w.timers, t.2 ≠ Slot.Delayed) :
    ∀ (evs : List Event) (w1 : World), Event.timer Slot.Timeout ∉ evs → run evs w = some w1 →
      w1.mDelay = w.mDelay ∧
      (w1.mSawInitialLayout = true → Event.initialLayoutCompleted ∈ evs) ∧
      (w1.mSawDocumentComplete = true → ∃ ok, Event.loadFinished ok ∈ evs) ∧
      (∀ t ∈ w1.timers, t.2 = Slot.Delayed →
        t.1 = w.mDelay ∧ Event.initialLayoutCompleted ∈ evs ∧
          ∃ ok, Event.loadFinished ok ∈ evs) ∧
      (w1.exports ≠ w.exports →
        ∃ pre post, evs = pre ++ Event.timer Slot.Delayed :: post ∧
          Event.initialLayoutCompleted ∈ pre ∧ ∃ ok, Event.loadFinished ok ∈ pre) := by
  intro evs
  induction evs using List.reverseRecOn with
  | nil =>
    intro w1 _ hrun
    rw [run_nil] at hrun
    injection hrun with hrun
    subst hrun
    refine ⟨rfl, ?_, ?_, ?_, ?_⟩
    · intro h; rw [hl] at h; cases h
    · intro h; rw [hd] at h; cases h
    · intro t htm htd; exact absurd htd (ht t htm)
    · intro h; exact absurd rfl h
  | append_singleton evs e ih =>
    intro w2 hno hrun
    rw [run_snoc] at hrun
    cases hr : run evs w with
    | none => rw [hr] at hrun; cases hrun
    | some w1 =>
      rw [hr] at hrun
      have hno1 : Event.timer Slot.Timeout ∉ evs := fun h => hno (List.mem_append_left _ h)
      obtain ⟨iD, iL, iC, iT, iE⟩ := ih w1 hno1 hr
      have hD1 : 0 < w1.mDelay := by rw [iD]; exact hD
      have upL : Event.initialLayoutCompleted ∈ evs →
          Event.initialLayoutCompleted ∈ evs ++ [e] := fun h => List.mem_append_left _ h
      have upC : (∃ ok, Event.loadFinished ok ∈ evs) →
          ∃ ok, Event.loadFinished ok ∈ evs ++ [e] :=
        fun ⟨ok, h⟩ => ⟨ok, List.mem_append_left _ h⟩
      have upE : (∃ pre post, evs = pre ++ Event.timer Slot.Delayed :: post ∧
          Event.initialLayoutCompleted ∈ pre ∧ ∃ ok, Event.loadFinished ok ∈ pre) →
          ∃ pre post, evs ++ [e] = pre ++ Event.timer Slot.Delayed :: post ∧
          Event.initialLayoutCompleted ∈ pre ∧ ∃ ok, Event.loadFinished ok ∈ pre := by
        rintro ⟨pre, post, h1, h2, h3⟩
        exact ⟨pre, post ++ [e], by rw [h1]; simp, h2, h3⟩
      cases e with
      | initialLayoutCompleted =>
        simp only [Option.bind, deliver] at hrun
        injection hrun with hrun
        subst hrun
        obtain ⟨a1, a2, _, a4, a5⟩ := InitialLayoutCompleted_pos w1 hD1
        refine ⟨by rw [a2, iD], fun _ => List.mem_append_right _ (List.mem_singleton_self _),
          fun h => upC (iC (by rw [← a4]; exact h)), ?_, fun h => upE (iE (by rw [← a1]; exact h))⟩
        intro t htm htd
        rcases a5 t htm with h | ⟨h, hc⟩
        · obtain ⟨b1, b2, b3⟩ := iT t h htd
          exact ⟨b1, upL b2, upC b3⟩
        · exact ⟨by rw [h, iD], List.mem_append_right _ (List.mem_singleton_self _), upC (iC hc)⟩
      | loadFinished ok =>
        simp only [Option.bind, deliver] at hrun
        injection hrun with hrun
        subst hrun
        obtain ⟨a1, a2, _, a4, a5⟩ := DocumentComplete_pos ok w1 hD1
        refine ⟨by rw [a2, iD], fun h => upL (iL (by rw [← a4]; exact h)),
          fun _ => ⟨ok, List.mem_append_right _ (List.mem_singleton_self _)⟩, ?_,
          fun h => upE (iE (by rw [← a1]; exact h))⟩
        intro t htm htd
        rcases a5 t htm with h | ⟨h, hc⟩
        · obtain ⟨b1, b2, b3⟩ := iT t h htd
          exact ⟨b1, upL b2, upC b3⟩
        · exact ⟨by rw [h, iD], upL (iL hc),
            ⟨ok, List.mem_append_right _ (List.mem_singleton_self _)⟩⟩
      | timer slot =>
        cases slot with
        | Timeout => exact absurd (List.mem_append_right _ (List.mem_singleton_self _)) hno
        | Delayed =>
          simp only [Option.bind, deliver] at hrun
          cases htk : takeTimer Slot.Delayed w1.timers with
          | none => rw [htk] at hrun; cases hrun
          | some rest =>
            rw [htk] at hrun
            injection hrun with hrun
            subst hrun
            obtain ⟨⟨t, htm, htd⟩, hsub⟩ := takeTimer_some _ _ _ htk
            obtain ⟨_, b2, b3⟩ := iT t htm htd
            refine ⟨iD, fun h => upL (iL h), fun h => upC (iC h), ?_, fun _ => ⟨evs, [], rfl, b2, b3⟩⟩
            intro x hx hxd
            obtain ⟨c1, c2, c3⟩ := iT x (hsub x hx) hxd
            exact ⟨c1, upL c2, upC c3⟩

/-- C4: with a delay `D > 0`, in every event trace from a session that has seen
no signal and has no delay timer pending, and in which the timeout timer does
not fire, an export happens only after a `Delayed` timer event that both
readiness signals precede; every pending delay timer was scheduled for `D` ms;
and none of `InitialLayoutCompleted`, `DocumentComplete`, `TryDelayedRender`
exports or requests exit when the delay is positive (`TryDelayedRender` only
schedules the timer). -/
theorem delay_gates_export (w : World) (D : Int) (evs : List Event) (w1 : World)
    (hD : 0 < D) (hdelay : w.mDelay = D)
    (hl : w.mSawInitialLayout = false) (hd : w.mSawDocumentComplete = false)
    (ht : ∀ t ∈ w.timers, t.2 ≠ Slot.Delayed)
    (hno : Event.timer Slot.Timeout ∉ evs) (hrun : run evs w = some w1) :
    (w1.exports ≠ w.exports →
      ∃ pre post, evs = pre ++ Event.timer Slot.Delayed :: post ∧
        Event.initialLayoutCompleted ∈ pre ∧ ∃ ok, Event.loadFinished ok ∈ pre) ∧
    (∀ t ∈ w1.timers, t.2 = Slot.Delayed → t.1 = D) ∧
    ∀ v : World, 0 < v.mDelay →
      (InitialLayoutCompleted v).exports = v.exports ∧
      (∀ ok, (DocumentComplete ok v).exports = v.exports) ∧
      (TryDelayedRender v).exports = v.exports ∧
      (TryDelayedRender v).exits = v.exits ∧
      (TryDelayedRender v).timers = v.timers ++ [(v.mDelay, Slot.Delayed)] := by
  subst hdelay
  obtain ⟨_, _, _, iT, iE⟩ := delay_trace_invariant w hD hl hd ht evs w1 hno hrun
  refine ⟨iE, fun t htm htd => (iT t htm htd).1, ?_⟩
  intro v hv
  refine ⟨(InitialLayoutCompleted_pos v hv).1, fun ok => (DocumentComplete_pos ok v hv).1, ?_⟩
  rw [TryDelayedRender_pos v hv]
  exact ⟨rfl, rfl, rfl⟩

theorem delay_gates_export_witness :
    ∃ pre post, [Event.initialLayoutCompleted, Event.loadFinished true,
        Event.timer Slot.Delayed] = pre ++ Event.timer Slot.Delayed :: post ∧
      Event.initialLayoutCompleted ∈ pre ∧ ∃ ok, Event.loadFinished ok ∈ pre :=
  (delay_gates_export delayedSession 500
    [Event.initialLayoutCompleted, Event.loadFinished true, Event.timer Slot.Delayed]
    (Delayed { DocumentComplete true (InitialLayoutCompleted delayedSession) with timers := [] })
    (by decide) rfl rfl rfl (by decide) (by decide) (by decide)).1 (by decide)

/-- C11: with a delay of 0, the readiness signal that makes both flags true
performs the export inside the callback (the export `saveSnapshot` makes on
that session, one more than before), requests exit with `QApplication::exit()`
and leaves the pending timers as they were: no timer is scheduled. -/
theorem zero_delay_fires_synchronously (w v : World) (ok : Bool)
    (hw : w.mDelay = 0) (hwc : w.mSawDocumentComplete = true)
    (hv : v.mDelay = 0) (hvl : v.mSawInitialLayout = true) :
    ((InitialLayoutCompleted w).exports = (saveSnapshot w).exports ∧
      (InitialLayoutCompleted w).exports.length = w.exports.length + 1 ∧
      (InitialLayoutCompleted w).exits = w.exits ++ [0] ∧
      (InitialLayoutCompleted w).timers = w.timers) ∧
    ((DocumentComplete ok v).exports = (saveSnapshot v).exports ∧
      (DocumentComplete ok v).exports.length = v.exports.length + 1 ∧
      (DocumentComplete ok v).exits = v.exits ++ [0] ∧
      (DocumentComplete ok v).timers = v.timers) := by
  constructor
  · have h : InitialLayoutCompleted w = appExit (saveSnapshot { w with
        mSawInitialLayout := true,
        tryDelayedRenderCalls := w.tryDelayedRenderCalls + 1 }) 0 := by
      simp [InitialLayoutCompleted, hwc, TryDelayedRender, hw]
    rw [h]
    refine ⟨rfl, ?_, rfl, rfl⟩
    simp [appExit, saveSnapshot]
  · have h : DocumentComplete ok v = appExit (saveSnapshot { v with
        mSawDocumentComplete := true,
        tryDelayedRenderCalls := v.tryDelayedRenderCalls + 1 }) 0 := by
      simp [DocumentComplete, hvl, TryDelayedRender, hv]
    rw [h]
    refine ⟨rfl, ?_, rfl, rfl⟩
    simp [appExit, saveSnapshot]

theorem zero_delay_fires_synchronously_witness :
    (InitialLayoutCompleted loadedSession).exports.length = loadedSession.exports.length + 1 ∧
    (InitialLayoutCompleted loadedSession).timers = loadedSession.timers ∧
    (DocumentComplete false laidOutSession).exits = laidOutSession.exits ++ [0] :=
  have h := zero_delay_fires_synchronously loadedSession laidOutSession false
    (by decide) (by decide) (by decide) (by decide)
  ⟨h.1.2.1, h.1.2.2.2, h.2.2.2.1⟩

theorem Char_toNat_eq (a b : Char) (h : a.toNat = b.toNat) : a = b := by
  rw [← Char.ofNat_toNat a, ← Char.ofNat_toNat b, h]

theorem strcmp_eq_zero (a : CString) :
    ∀ b : CString, nul ∉ a → nul ∉ b → strcmp a b = 0 → a = b := by
  have hnul : ∀ c : Char, (c.toNat : Int) = 0 → c = nul := by
    intro c hc
    apply Char_toNat_eq
    have : c.toNat = 0 := by exact_mod_cast hc
    rw [this]; rfl
  induction a with
  | nil =>
    intro b _ hb h
    cases b with
    | nil => rfl
    | cons y ys =>
      exfalso
      simp only [strcmp] at h
      have hy : y = nul := hnul y (by omega)
      exact hb (by rw [hy]; exact List.mem_cons_self _ _)
  | cons x xs ih =>
    intro b ha hb h
    cases b with
    | nil =>
      exfalso
      simp only [strcmp] at h
      exact ha (by rw [hnul x h]; exact List.mem_cons_self _ _)
    | cons y ys =>
      simp only [strcmp] at h
      by_cases hxy : x = y
      · rw [if_pos hxy] at h
        rw [hxy, ih ys (fun hm => ha (List.mem_cons_of_mem _ hm))
          (fun hm => hb (List.mem_cons_of_mem _ hm)) h]
      · rw [if_neg hxy] at h
        exact absurd (Char_toNat_eq x y (by omega)) hxy

theorem outFormatLoop_no_hit (v : CString) :
    ∀ (rows : List ExtMapEntry) (acc : OutputFormat),
      (∀ e ∈ rows.takeWhile (fun e => e.id ≠ OtherFormat), strcmp v e.identifier ≠ 0) →
      outFormatLoop v rows acc = acc := by
  intro rows
  induction rows with
  | nil => intro acc _; rfl
  | cons e rest ih =>
    intro acc h
    unfold outFormatLoop
    by_cases he : e.id = OtherFormat
    · simp [he]
    · have htw : (e :: rest).takeWhile (fun e => e.id ≠ OtherFormat)
          = e :: rest.takeWhile (fun e => e.id ≠ OtherFormat) := by
        simp [List.takeWhile, he]
      rw [htw] at h
      rw [if_neg he, if_neg (h e (List.mem_cons_self _ _))]
      exact ih acc (fun x hx => h x (List.mem_cons_of_mem _ hx))

theorem extMapRows_identifier_nul (e : ExtMapEntry) (he : e ∈ extMapRows) :
    nul ∉ e.identifier := by
  revert e
  decide

/-- C12: the identifiers, the extensions and the format ids of the rows of
`CutyExtMap` before the terminating one are each pairwise distinct; for the
identifier of such a row, the `--out-format` loop yields that row's format from
any starting format, and the identifier loop of `saveSnapshot` maps that
format back to the same identifier; and a C string that differs from every
identifier matches no row (`strcmp` is never 0) and leaves the format as it
was. -/
theorem table_round_trips (e : ExtMapEntry) (v : CString) (acc : OutputFormat)
    (he : e ∈ extMapRows) (hv : nul ∉ v) (hne : ∀ r ∈ extMapRows, v ≠ r.identifier) :
    (extMapRows.map (fun r => r.identifier)).Nodup ∧
    (extMapRows.map (fun r => r.extension)).Nodup ∧
    (extMapRows.map (fun r => r.id)).Nodup ∧
    outFormatLoop e.identifier CutyExtMap acc = e.id ∧
    identifierLoop (outFormatLoop e.identifier CutyExtMap acc) CutyExtMap none
      = some e.identifier ∧
    (∀ r ∈ extMapRows, strcmp v r.identifier ≠ 0) ∧
    outFormatLoop v CutyExtMap acc = acc := by
  have hno : ∀ r ∈ extMapRows, strcmp v r.identifier ≠ 0 := fun r hr h =>
    hne r hr (strcmp_eq_zero v r.identifier hv (extMapRows_identifier_nul r hr) h)
  refine ⟨by decide, by decide, by decide, outFormatLoop_row e he acc, ?_, hno,
    outFormatLoop_no_hit v CutyExtMap acc hno⟩
  rw [outFormatLoop_row e he acc]
  exact identifierLoop_row e he

theorem table_round_trips_witness :
    outFormatLoop "png".toList CutyExtMap SvgFormat = PngFormat ∧
    identifierLoop (outFormatLoop "png".toList CutyExtMap SvgFormat) CutyExtMap none
      = some "png".toList ∧
    outFormatLoop "bogus".toList CutyExtMap SvgFormat = SvgFormat :=
  have h := table_round_trips ⟨PngFormat, ".png".toList, "png".toList⟩ "bogus".toList SvgFormat
    (by decide) (by decide) (by decide)
  ⟨h.2.2.2.1, h.2.2.2.2.1, h.2.2.2.2.2.2⟩

/-- C13 on the code: for `--url=u --out=page.png --method=post` the load is
made with `GetOperation`, and likewise for `--method=put`; the `--method`
branch compares the string "value" and never the argument. -/
theorem method_post_loads_get :
    (∃ w, main ["CutyCapt".toList, "--url=u".toList, "--out=page.png".toList,
        "--method=post".toList] = .exec w ∧
      w.loads = [⟨{ url := some "u".toList }, Operation.GetOperation, none⟩]) ∧
    (∃ w, main ["CutyCapt".toList, "--url=u".toList, "--out=page.png".toList,
        "--method=put".toList] = .exec w ∧
      w.loads = [⟨{ url := some "u".toList }, Operation.GetOperation, none⟩]) ∧
    ∀ (value : CString) (st : MainState),
      (runBranch value st Branch.method).1.method = st.method :=
  ⟨⟨_, rfl, rfl⟩, ⟨_, rfl, rfl⟩, fun _ _ => rfl⟩

/-- C14 on the code: for `--url=u --out=page.png --java=off` the attribute
`JavascriptEnabled` is set to off and `JavaEnabled` is left unset; the test of
the `--javascript` branch comes first and holds for the name `--java`. -/
theorem java_sets_javascript :
    (∃ w, main ["CutyCapt".toList, "--url=u".toList, "--out=page.png".toList,
        "--java=off".toList] = .exec w ∧
      w.mPage.testAttribute WebAttribute.JavaEnabled = none ∧
      w.mPage.testAttribute WebAttribute.JavascriptEnabled = some false) ∧
    branchOfArg "--java=off".toList = some Branch.javascript ∧
    branchOfArg "--javascript=off".toList = some Branch.javascript :=
  ⟨⟨_, rfl, rfl, rfl⟩, rfl, rfl⟩

/-- C16 on the code: for `--url=u --out=page.png --out-format=bogus` usage is
not printed; the session starts with `PngFormat`, the format the earlier
`--out` resolved, while the same `--out-format=bogus` before `--out` is
rejected. -/
theorem bogus_format_after_out_accepted :
    (∃ w, main ["CutyCapt".toList, "--url=u".toList, "--out=page.png".toList,
        "--out-format=bogus".toList] = .exec w ∧ w.mFormat = PngFormat) ∧
    main ["CutyCapt".toList, "--url=u".toList, "--out-format=bogus".toList,
      "--out=page.png".toList] = .usage :=
  ⟨⟨_, rfl, rfl⟩, rfl⟩

/-- C17 on the code: the arguments `--u=u --o=page.png` and `--=u --o=page.png`
are not errors; they are taken as `--url=u --out=page.png` and the session
starts, since a name that is a proper beginning of an option name passes the
`strncmp` test of that option. -/
theorem option_name_beginning_accepted :
    main ["CutyCapt".toList, "--u=u".toList, "--o=page.png".toList]
      = main ["CutyCapt".toList, "--url=u".toList, "--out=page.png".toList] ∧
    main ["CutyCapt".toList, "--=u".toList, "--o=page.png".toList]
      = main ["CutyCapt".toList, "--url=u".toList, "--out=page.png".toList] ∧
    main ["CutyCapt".toList, "--u=u".toList, "--o=page.png".toList] ≠ .usage ∧
    branchOfArg "--u=u".toList = some Branch.url ∧
    branchOfArg "--o=page.png".toList = some Branch.out ∧
    branchOfArg "--=u".toList = some Branch.url := by
  decide

/-- C18 on the code: for `--icon-database-path=/tmp/icons` the icon database
path is set from the `--user-styles` variable: to a null string when that
option is absent, and to its value `s.css` when it is given. -/
theorem icon_database_path_from_user_styles :
    (∃ w, main ["CutyCapt".toList, "--url=u".toList, "--out=page.png".toList,
        "--icon-database-path=/tmp/icons".toList] = .exec w ∧
      w.mPage.iconDatabasePath = some none) ∧
    (∃ w, main ["CutyCapt".toList, "--url=u".toList, "--out=page.png".toList,
        "--user-styles=s.css".toList, "--icon-database-path=/tmp/icons".toList] = .exec w ∧
      w.mPage.iconDatabasePath = some (some "s.css".toList)) ∧
    (parsed ["CutyCapt".toList, "--url=u".toList, "--out=page.png".toList,
        "--icon-database-path=/tmp/icons".toList]).argIconDbPath = some "/tmp/icons".toList :=
  ⟨⟨_, rfl, rfl⟩, ⟨_, rfl, rfl⟩, rfl⟩

theorem parseArg_branch (s : CString) (st : MainState) :
    (branchOfArg s = none ∧ (parseArg s st).1.argUrl = st.argUrl ∧
      (parseArg s st).1.argOut = st.argOut) ∨
    ∃ b value, branchOfArg s = some b ∧ parseArg s st = runBranch value st b := by
  unfold parseArg branchOfArg
  split_ifs
  · exact Or.inl ⟨rfl, rfl, rfl⟩
  · exact Or.inl ⟨rfl, rfl, rfl⟩
  · exact Or.inl ⟨rfl, rfl, rfl⟩
  · split
    · exact Or.inl ⟨rfl, rfl, rfl⟩
    · exact Or.inr ⟨_, _, rfl, rfl⟩

theorem runBranch_argUrl (value : CString) (st : MainState) (b : Branch) (hb : b ≠ Branch.url) :
    (runBranch value st b).1.argUrl = st.argUrl := by
  cases b <;> simp only [runBranch] <;> first | exact absurd rfl hb | rfl | (split <;> rfl)

theorem runBranch_argOut (value : CString) (st : MainState) (b : Branch) (hb : b ≠ Branch.out) :
    (runBranch value st b).1.argOut = st.argOut := by
  cases b <;> simp only [runBranch] <;> first | exact absurd rfl hb | rfl | (split <;> rfl)

theorem runBranch_stop (value : CString) (st : MainState) (b : Branch)
    (h : (runBranch value st b).2 = Flow.stop) : (runBranch value st b).1.argHelp = 1 := by
  cases b
  case outFormat =>
    simp only [runBranch] at h ⊢
    split
    · rfl
    · next hc => rw [if_neg hc] at h; exact Flow.noConfusion h
  case header =>
    simp only [runBranch] at h ⊢
    split
    · rfl
    · next hv heq => rw [heq] at h; exact Flow.noConfusion h
  case method =>
    simp only [runBranch] at h
    split_ifs at h
  all_goals exact Flow.noConfusion h

theorem parseArg_stop (s : CString) (st : MainState) (h : (parseArg s st).2 = Flow.stop) :
    (parseArg s st).1.argHelp = 1 := by
  unfold parseArg at h ⊢
  split_ifs at h ⊢
  · rfl
  · cases hs : strchr s '=' with
    | none => rfl
    | some value =>
      rw [hs] at h
      exact runBranch_stop _ _ _ h

theorem parseLoop_cons_stop (s : CString) (rest : List CString) (st st1 : MainState)
    (h : parseArg s st = (st1, Flow.stop)) : parseLoop (s :: rest) st = st1 := by
  rw [parseLoop, h]

theorem parseLoop_step (s : CString) (rest : List CString) (st : MainState) :
    (parseLoop (s :: rest) st = parseLoop rest (parseArg s st).1 ∧
      (parseArg s st).2 = Flow.next) ∨
    (parseLoop (s :: rest) st = (parseArg s st).1 ∧ (parseArg s st).2 = Flow.stop) := by
  cases hf : (parseArg s st).2 with
  | next =>
    exact Or.inl ⟨parseLoop_cons_next s rest st _ (by rw [← hf]), rfl⟩
  | stop =>
    exact Or.inr ⟨parseLoop_cons_stop s rest st _ (by rw [← hf]), rfl⟩

theorem parseLoop_argUrl (args : List CString)
    (h : ∀ a ∈ args, branchOfArg a ≠ some Branch.url) :
    ∀ st : MainState, (parseLoop args st).argUrl = st.argUrl := by
  induction args with
  | nil => intro st; rfl
  | cons a rest ih =>
    intro st
    have ha : (parseArg a st).1.argUrl = st.argUrl := by
      rcases parseArg_branch a st with h1 | ⟨b, value, hb, hp⟩
      · exact h1.2.1
      · rw [hp]
        apply runBranch_argUrl
        intro hbu
        exact h a (List.mem_cons_self _ _) (by rw [hb, hbu])
    rcases parseLoop_step a rest st with h1 | h1
    · rw [h1.1, ih (fun x hx => h x (List.mem_cons_of_mem _ hx)), ha]
    · rw [h1.1, ha]

theorem parseLoop_argOut (args : List CString)
    (h : ∀ a ∈ args, branchOfArg a ≠ some Branch.out) :
    ∀ st : MainState, (parseLoop args st).argOut = st.argOut := by
  induction args with
  | nil => intro st; rfl
  | cons a rest ih =>
    intro st
    have ha : (parseArg a st).1.argOut = st.argOut := by
      rcases parseArg_branch a st with h1 | ⟨b, value, hb, hp⟩
      · exact h1.2.2
      · rw [hp]
        apply runBranch_argOut
        intro hbu
        exact h a (List.mem_cons_self _ _) (by rw [hb, hbu])
    rcases parseLoop_step a rest st with h1 | h1
    · rw [h1.1, ih (fun x hx => h x (List.mem_cons_of_mem _ hx)), ha]
    · rw [h1.1, ha]

theorem strchr_none (c : Char) : ∀ s : CString, c ∉ s → strchr s c = none := by
  intro s
  induction s with
  | nil => intro _; rfl
  | cons a rest ih =>
    intro h
    unfold strchr
    rw [if_neg (fun hac => h (by rw [hac]; exact List.mem_cons_self _ _)),
      ih (fun hm => h (List.mem_cons_of_mem _ hm))]

theorem parseArg_header (v : CString) (st : MainState) :
    parseArg ("--header=".toList ++ v) st = runBranch v st .header := by
  have hs : "--header=".toList ++ v
      = '-' :: '-' :: 'h' :: 'e' :: 'a' :: 'd' :: 'e' :: 'r' :: '=' :: v := rfl
  rw [hs]
  have h1 : strcmp "--silent".toList
      ('-' :: '-' :: 'h' :: 'e' :: 'a' :: 'd' :: 'e' :: 'r' :: '=' :: v) = 11 := rfl
  have h2 : strcmp "--help".toList
      ('-' :: '-' :: 'h' :: 'e' :: 'a' :: 'd' :: 'e' :: 'r' :: '=' :: v) = 11 := rfl
  have h3 : strcmp "--verbose".toList
      ('-' :: '-' :: 'h' :: 'e' :: 'a' :: 'd' :: 'e' :: 'r' :: '=' :: v) = 14 := rfl
  have h4 : strchr ('-' :: '-' :: 'h' :: 'e' :: 'a' :: 'd' :: 'e' :: 'r' :: '=' :: v) '='
      = some ('=' :: v) := rfl
  have h5 : branchOf ('-' :: '-' :: 'h' :: 'e' :: 'a' :: 'd' :: 'e' :: 'r' :: '=' :: v) 8
      = .header := rfl
  have h6 : ('-' :: '-' :: 'h' :: 'e' :: 'a' :: 'd' :: 'e' :: 'r' :: '=' :: v).length
      - ('=' :: v).length = 8 := by
    simp
  unfold parseArg
  rw [h1, h2, h3, h4]
  simp only [h6, nameValue, h5, List.drop_succ_cons, List.drop_zero]
  rfl

theorem parseLoop_header_argHelp (v : CString) (hv : ':' ∉ v) (post : List CString) :
    ∀ (pre : List CString) (st : MainState),
      (parseLoop (pre ++ ("--header=".toList ++ v) :: post) st).argHelp = 1 := by
  intro pre
  induction pre with
  | nil =>
    intro st
    have h : parseArg ("--header=".toList ++ v) st = ({ st with argHelp := 1 }, Flow.stop) := by
      rw [parseArg_header]
      simp only [runBranch, strchr_none ':' v hv]
    rw [List.nil_append, parseLoop_cons_stop _ _ _ _ h]
  | cons a rest ih =>
    intro st
    rw [List.cons_append]
    rcases parseLoop_step a (rest ++ ("--header=".toList ++ v) :: post) st with h1 | h1
    · rw [h1.1]; exact ih _
    · rw [h1.1]; exact parseArg_stop a st h1.2

/-- What the validation of `main` does reject: when no argument takes the
`--url` branch of the chain, or none takes the `--out` branch, or some argument
is `--header=v` with no `:` in `v`, `main` ends on the path that prints the
usage text and returns `EXIT_FAILURE`, before the session is constructed. -/
theorem configuration_errors_rejected (argv : List CString)
    (h : (∀ a ∈ argv.drop 1, branchOfArg a ≠ some Branch.url) ∨
      (∀ a ∈ argv.drop 1, branchOfArg a ≠ some Branch.out) ∨
      ∃ v, ("--header=".toList ++ v) ∈ argv.drop 1 ∧ ':' ∉ v) :
    main argv = .usage := by
  simp only [main, startSession]
  apply if_pos
  rcases h with h | h | ⟨v, hm, hv⟩
  · have : (parsed argv).argUrl = none := parseLoop_argUrl _ h {}
    simp [this]
  · have : (parsed argv).argOut = [] := parseLoop_argOut _ h {}
    simp [this]
  · obtain ⟨pre, post, hsplit⟩ := List.append_of_mem hm
    have : (parsed argv).argHelp = 1 := by
      rw [parsed, hsplit]
      exact parseLoop_header_argHelp v hv post pre {}
    simp [this]

theorem configuration_errors_rejected_witness :
    main ["CutyCapt".toList, "--out=page.png".toList] = .usage ∧
    main ["CutyCapt".toList, "--url=u".toList] = .usage ∧
    main ["CutyCapt".toList, "--url=u".toList, "--out=page.png".toList,
      "--header=".toList ++ "Accept".toList] = .usage :=
  ⟨configuration_errors_rejected _ (Or.inl (by decide)),
    configuration_errors_rejected _ (Or.inr (Or.inl (by decide))),
    configuration_errors_rejected _ (Or.inr (Or.inr ⟨"Accept".toList, by decide, by decide⟩))⟩

/-- C15 on the code: in `--u=u --out=page.png` no argument begins with `--url=`,
and in `--url=u --o=page.png` none begins with `--out=`, yet `main` does not
print usage: it builds the session, arms the timeout timer and starts the load
of `u`, as it does for `--url=u --out=page.png`. -/
theorem absent_option_not_rejected :
    (∀ a ∈ ["--u=u".toList, "--out=page.png".toList], ¬ "--url=".toList <+: a) ∧
    (∃ w, main ["CutyCapt".toList, "--u=u".toList, "--out=page.png".toList] = .exec w ∧
      w.loads = [⟨{ url := some "u".toList }, Operation.GetOperation, none⟩] ∧
      w.timers = [(90000, Slot.Timeout)]) ∧
    (∀ a ∈ ["--url=u".toList, "--o=page.png".toList], ¬ "--out=".toList <+: a) ∧
    (∃ w, main ["CutyCapt".toList, "--url=u".toList, "--o=page.png".toList] = .exec w ∧
      w.mOutput = "page.png".toList ∧
      w.loads = [⟨{ url := some "u".toList }, Operation.GetOperation, none⟩] ∧
      w.timers = [(90000, Slot.Timeout)]) :=
  ⟨by decide, ⟨_, rfl, rfl, rfl⟩, by decide, ⟨_, rfl, rfl, rfl, rfl⟩⟩

end Cuty
